import Mathlib

/-!
Verification of `run_marylou/extract_results.py`.

The script stages BioEmu ensemble results: for each immediate subdirectory of
an input directory (excluding ones already named with the `_final_results`
suffix) it creates a sibling `<name>_final_results` directory and copies a
fixed list of required files into it, tracking copied / missing / error
outcomes per file and aggregate counters per run.

The embedding models the filesystem around the input root as
  * `entries`  : the immediate children of the input root, in filesystem
                 enumeration order, each tagged with whether it is a directory;
  * `contents` : for each child-directory name and filename, the file data
                 (`none` when the file does not exist); `shutil.copy2` copies
                 data (content plus metadata) from source to destination.
Failures of the copy primitive are modelled by an oracle `copyFail` giving,
for a (source directory, filename) pair, `some errorMessage` when
`shutil.copy2` would raise and `none` when it succeeds.  Interactive prompt
answers are modelled by an oracle `answer` from the candidate name to the raw
input line, mirroring the injected-decision-function view of the prompt.
Console output is modelled as a list of strings, one per `print` call (the
`input` prompt text included).
-/

namespace ExtractResults

/-- Python `s.endswith(sfx)`: suffix test on the character sequence. -/
def py_endswith (s sfx : String) : Bool :=
  sfx.data.isSuffixOf s.data

/-- Python `s.strip()`: remove leading and trailing whitespace. -/
def py_strip (s : String) : String :=
  ⟨((s.data.dropWhile Char.isWhitespace).reverse.dropWhile Char.isWhitespace).reverse⟩

/-- Python `s.lower()` (ASCII case folding, all the script compares is "y"). -/
def py_lower (s : String) : String :=
  ⟨s.data.map Char.toLower⟩

/-- Python string comparison `a <= b`: lexicographic on code points, which is
exactly the lexicographic order on the character lists. `sorted()` orders by
this relation. -/
def strle (a b : String) : Prop :=
  a.data ≤ b.data

instance : DecidableRel strle := fun a b =>
  inferInstanceAs (Decidable (a.data ≤ b.data))

/-- The filesystem state around the input root. -/
structure FS where
  entries : List (String × Bool)
  contents : String → String → Option String

/-- Model of `Path.exists` for an immediate child of the input root. -/
def FS.existsEntry (fs : FS) (name : String) : Bool :=
  fs.entries.any (fun e => e.1 == name)

/-- Model of `dest_dir.mkdir(parents=True, exist_ok=True)`: the new directory becomes a
child of the input root. -/
def FS.mkdir (fs : FS) (name : String) : FS :=
  { fs with entries := fs.entries ++ [(name, true)] }

/-- Model of `shutil.copy2(src/filename, dst/filename)`: the destination file becomes a
copy (data and metadata) of the source file. -/
def FS.copy2 (fs : FS) (src dst filename : String) : FS :=
  { fs with contents := fun d f =>
      if d == dst && f == filename then fs.contents src filename
      else fs.contents d f }

/-- The result dictionary of `copy_ensemble_files`. -/
structure CopyResults where
  copied : List String
  missing : List String
  errors : List String
deriving Repr, DecidableEq

/-- Translation of `copy_ensemble_files(source_dir, dest_dir, required_files)`: copy each
required file that exists at the source into the destination, recording per
file exactly one of copied / missing / error, and never aborting the batch.
Returns the updated filesystem, the result record, and the printed lines. -/
def copy_ensemble_files (copyFail : String → String → Option String)
    (source_dir dest_dir : String) (fs : FS) (required_files : List String) :
    FS × CopyResults × List String :=
  match required_files with
  | [] => (fs, ⟨[], [], []⟩, [])
  | filename :: rest =>
    if (fs.contents source_dir filename).isSome then
      match copyFail source_dir filename with
      | none =>
        let step := copy_ensemble_files copyFail source_dir dest_dir
          (fs.copy2 source_dir dest_dir filename) rest
        (step.1, { step.2.1 with copied := filename :: step.2.1.copied },
          ("    ✓ Copied: " ++ filename) :: step.2.2)
      | some e =>
        let step := copy_ensemble_files copyFail source_dir dest_dir fs rest
        (step.1, { step.2.1 with errors := (filename ++ ": " ++ e) :: step.2.1.errors },
          ("    ✗ Error copying " ++ filename ++ ": " ++ e) :: step.2.2)
    else
      let step := copy_ensemble_files copyFail source_dir dest_dir fs rest
      (step.1, { step.2.1 with missing := filename :: step.2.1.missing },
        ("    ⚠ Missing: " ++ filename) :: step.2.2)

/-- The aggregate run-summary counters. -/
structure Summary where
  processed : Nat
  created : Nat
  skipped : Nat
  total_copied : Nat
  total_missing : Nat
  total_errors : Nat
deriving Repr, DecidableEq

/-- The environment of a run: validity of the input path, the prompt-answer
oracle (raw input line per candidate name) and the copy-failure oracle. -/
structure Env where
  input_exists : Bool
  input_is_dir : Bool
  answer : String → String
  copyFail : String → String → Option String

/-- The literal output-suffix marker. -/
def output_suffix : String := "_final_results"

/-- The default required-filename list. -/
def default_required : List String := ["topology.pdb", "samples.xtc", "sequence.fasta"]

/-- The candidate subdirectories: immediate children that are directories and
whose name does not end with the output-suffix marker, in enumeration order. -/
def candidate_subdirs (fs : FS) : List String :=
  (fs.entries.filter (fun e => e.2 && !(py_endswith e.1 output_suffix))).map (fun e => e.1)

/-- State threaded through the per-candidate loop of `process_ensembles`. -/
structure RunState where
  fs : FS
  summary : Summary
  out : List String

/-- The tail of the loop body shared by both non-skip branches: run
`copy_ensemble_files` and accumulate its counts into the summary. -/
def copy_phase (env : Env) (required : List String) (name dest_dir_name : String)
    (fs : FS) (summary : Summary) (out : List String) : RunState :=
  let step := copy_ensemble_files env.copyFail name dest_dir_name fs required
  { fs := step.1,
    summary := { summary with
      total_copied := summary.total_copied + step.2.1.copied.length,
      total_missing := summary.total_missing + step.2.1.missing.length,
      total_errors := summary.total_errors + step.2.1.errors.length,
      processed := summary.processed + 1 },
    out := out ++ ["  → Copying files..."] ++ step.2.2 }

/-- One iteration of the loop in `process_ensembles` over a candidate. -/
def process_candidate (env : Env) (required : List String) (total : Nat)
    (st : RunState) (name : String) : RunState :=
  let header := "\n[" ++ toString (st.summary.processed + 1) ++ "/" ++ toString total ++
    "] Processing: " ++ name
  let dest_dir_name := name ++ output_suffix
  if st.fs.existsEntry dest_dir_name then
    let out1 := st.out ++ [header, "  → Destination already exists: " ++ dest_dir_name,
      "    Overwrite contents? (y/n): "]
    if py_lower (py_strip (env.answer name)) ≠ "y" then
      { fs := st.fs,
        summary := { st.summary with
          skipped := st.summary.skipped + 1,
          processed := st.summary.processed + 1 },
        out := out1 ++ ["    Skipped."] }
    else
      copy_phase env required name dest_dir_name st.fs st.summary out1
  else
    copy_phase env required name dest_dir_name (st.fs.mkdir dest_dir_name)
      { st.summary with created := st.summary.created + 1 }
      (st.out ++ [header, "  → Created: " ++ dest_dir_name])

/-- The loop of `process_ensembles` over the sorted candidates. -/
def run_loop (env : Env) (required : List String) (total : Nat)
    (st : RunState) (names : List String) : RunState :=
  match names with
  | [] => st
  | name :: rest => run_loop env required total (process_candidate env required total st name) rest

/-- Model of the `"=" * 80` separator line. -/
def eq80 : String := ⟨List.replicate 80 '='⟩

/-- The final SUMMARY block, including the mutually exclusive status line. -/
def summary_block (s : Summary) : List String :=
  ["\n" ++ eq80, "SUMMARY", eq80,
   "Directories processed: " ++ toString s.processed,
   "Directories created:   " ++ toString s.created,
   "Directories skipped:   " ++ toString s.skipped,
   "Files copied:          " ++ toString s.total_copied,
   "Files missing:         " ++ toString s.total_missing,
   "Errors:                " ++ toString s.total_errors,
   eq80] ++
  (if s.total_errors > 0 then ["\n⚠ Warning: Some errors occurred during processing."]
   else if s.total_missing > 0 then ["\n⚠ Warning: Some required files were missing."]
   else ["\n✓ All operations completed successfully!"])

/-- Result of a run of `process_ensembles`: either a `sys.exit(code)` during
setup (with the untouched filesystem), or a completed run. -/
inductive RunResult where
  | exited (code : Nat) (fs : FS) (out : List String)
  | finished (fs : FS) (summary : Summary) (out : List String)

/-- Translation of `process_ensembles(input_path, required_files)`. `input_dir` is the
resolved input path (as a string, used only in messages); the validity checks
on it are answered by the environment. -/
def process_ensembles (env : Env) (input_dir : String) (fs : FS)
    (required_files : Option (List String)) : RunResult :=
  let required := required_files.getD default_required
  if !env.input_exists then
    .exited 1 fs ["Error: Input path does not exist: " ++ input_dir]
  else if !env.input_is_dir then
    .exited 1 fs ["Error: Input path is not a directory: " ++ input_dir]
  else
    let subdirs := candidate_subdirs fs
    if subdirs.isEmpty then
      .exited 0 fs ["No subdirectories found in: " ++ input_dir]
    else
      let header := ["\nProcessing " ++ toString subdirs.length ++
          " subdirectories in: " ++ input_dir,
        "Required files: " ++ String.intercalate ", " required ++ "\n",
        eq80]
      let st := run_loop env required subdirs.length
        ⟨fs, ⟨0, 0, 0, 0, 0, 0⟩, header⟩ (subdirs.insertionSort strle)
      .finished st.fs st.summary (st.out ++ summary_block st.summary)

/-! ### Basic lemmas about the copy operation -/

/-- Lemma: `copy2` touches only the destination row of the contents map. -/
theorem copy2_contents_ne (fs : FS) (src dst filename d f : String) (h : d ≠ dst) :
    (fs.copy2 src dst filename).contents d f = fs.contents d f := by
  simp only [FS.copy2]
  have : (d == dst) = false := by simpa using h
  simp [this]

/-- Lemma: `copy2` touches only the copied filename within the destination row. -/
theorem copy2_contents_ne_file (fs : FS) (src dst filename d f : String) (h : f ≠ filename) :
    (fs.copy2 src dst filename).contents d f = fs.contents d f := by
  simp only [FS.copy2]
  have : (f == filename) = false := by simpa using h
  simp [this]

/-- Lemma: `copy2` does not change the set of entries of the input root. -/
theorem copy2_entries (fs : FS) (src dst filename : String) :
    (fs.copy2 src dst filename).entries = fs.entries := rfl

/-- Every filename is classified in exactly one outcome list: the three list
lengths sum to the length of the input list. -/
theorem copy_counts (cf : String → String → Option String) (src dst : String)
    (fs : FS) (files : List String) :
    (copy_ensemble_files cf src dst fs files).2.1.copied.length +
    (copy_ensemble_files cf src dst fs files).2.1.missing.length +
    (copy_ensemble_files cf src dst fs files).2.1.errors.length = files.length := by
  induction files generalizing fs with
  | nil => rfl
  | cons filename rest ih =>
    cases hsome : (fs.contents src filename).isSome with
    | false =>
      simp only [copy_ensemble_files, hsome, Bool.false_eq_true, if_false, List.length_cons]
      have := ih fs
      omega
    | true =>
      cases hcf : cf src filename with
      | none =>
        simp only [copy_ensemble_files, hsome, if_true, hcf, List.length_cons]
        have := ih (fs.copy2 src dst filename)
        omega
      | some e =>
        simp only [copy_ensemble_files, hsome, if_true, hcf, List.length_cons]
        have := ih fs
        omega

/-- The copy operation never changes the entries of the input root. -/
theorem copy_entries (cf : String → String → Option String) (src dst : String)
    (fs : FS) (files : List String) :
    (copy_ensemble_files cf src dst fs files).1.entries = fs.entries := by
  induction files generalizing fs with
  | nil => rfl
  | cons filename rest ih =>
    cases hsome : (fs.contents src filename).isSome with
    | false => simpa only [copy_ensemble_files, hsome, Bool.false_eq_true, if_false] using ih fs
    | true =>
      cases hcf : cf src filename with
      | none =>
        simpa only [copy_ensemble_files, hsome, if_true, hcf] using ih (fs.copy2 src dst filename)
      | some e => simpa only [copy_ensemble_files, hsome, if_true, hcf] using ih fs

/-- The copy operation writes only into the destination directory: every other
directory's contents are untouched. -/
theorem copy_frame (cf : String → String → Option String) (src dst : String)
    (fs : FS) (files : List String) (d f : String) (hd : d ≠ dst) :
    (copy_ensemble_files cf src dst fs files).1.contents d f = fs.contents d f := by
  induction files generalizing fs with
  | nil => rfl
  | cons filename rest ih =>
    cases hsome : (fs.contents src filename).isSome with
    | false =>
      simp only [copy_ensemble_files, hsome, Bool.false_eq_true, if_false]
      exact ih fs
    | true =>
      cases hcf : cf src filename with
      | none =>
        simp only [copy_ensemble_files, hsome, if_true, hcf]
        rw [ih (fs.copy2 src dst filename), copy2_contents_ne fs src dst filename d f hd]
      | some e =>
        simp only [copy_ensemble_files, hsome, if_true, hcf]
        exact ih fs

/-- The copy operation writes only at the required filenames: within the
destination directory, files whose names are not in the list are untouched. -/
theorem copy_frame_file (cf : String → String → Option String) (src dst : String)
    (fs : FS) (files : List String) (f : String) (hf : f ∉ files) (d : String) :
    (copy_ensemble_files cf src dst fs files).1.contents d f = fs.contents d f := by
  induction files generalizing fs with
  | nil => rfl
  | cons filename rest ih =>
    have hf1 : f ≠ filename := fun h => hf (h ▸ List.mem_cons_self _ _)
    have hf2 : f ∉ rest := fun h => hf (List.mem_cons_of_mem _ h)
    cases hsome : (fs.contents src filename).isSome with
    | false =>
      simp only [copy_ensemble_files, hsome, Bool.false_eq_true, if_false]
      exact ih fs hf2
    | true =>
      cases hcf : cf src filename with
      | none =>
        simp only [copy_ensemble_files, hsome, if_true, hcf]
        rw [ih (fs.copy2 src dst filename) hf2, copy2_contents_ne_file fs src dst filename d f hf1]
      | some e =>
        simp only [copy_ensemble_files, hsome, if_true, hcf]
        exact ih fs hf2

/-- The outcome record and the printed lines of the copy operation depend only
on the source directory's row of the contents map (and the failure oracle). -/
theorem copy_congr (cf : String → String → Option String) (src dst : String)
    (fs fs' : FS) (files : List String) (hne : src ≠ dst)
    (h : ∀ f, fs.contents src f = fs'.contents src f) :
    (copy_ensemble_files cf src dst fs files).2 =
    (copy_ensemble_files cf src dst fs' files).2 := by
  induction files generalizing fs fs' with
  | nil => rfl
  | cons filename rest ih =>
    cases hsome : (fs.contents src filename).isSome with
    | false =>
      have hsome' : (fs'.contents src filename).isSome = false := by rw [← h]; exact hsome
      simp only [copy_ensemble_files, hsome, hsome', Bool.false_eq_true, if_false]
      have := ih fs fs' h
      simp [this]
    | true =>
      have hsome' : (fs'.contents src filename).isSome = true := by rw [← h]; exact hsome
      cases hcf : cf src filename with
      | none =>
        simp only [copy_ensemble_files, hsome, hsome', if_true, hcf]
        have hrow : ∀ f, (fs.copy2 src dst filename).contents src f =
            (fs'.copy2 src dst filename).contents src f := by
          intro f
          rw [copy2_contents_ne fs src dst filename src f hne,
            copy2_contents_ne fs' src dst filename src f hne]
          exact h f
        have := ih (fs.copy2 src dst filename) (fs'.copy2 src dst filename) hrow
        simp [this]
      | some e =>
        simp only [copy_ensemble_files, hsome, hsome', if_true, hcf]
        have := ih fs fs' h
        simp [this]

/-- A required file that exists at the source and whose copy succeeds ends up
at the destination with the source's data. -/
theorem copy_sets_dest (cf : String → String → Option String) (src dst : String)
    (fs : FS) (files : List String) (f v : String) (hne : src ≠ dst)
    (hmem : f ∈ files) (hsrc : fs.contents src f = some v) (hcf : cf src f = none) :
    (copy_ensemble_files cf src dst fs files).1.contents dst f = some v := by
  induction files generalizing fs with
  | nil => cases hmem
  | cons filename rest ih =>
    by_cases htail : f ∈ rest
    · cases hsome : (fs.contents src filename).isSome with
      | false =>
        simp only [copy_ensemble_files, hsome, Bool.false_eq_true, if_false]
        exact ih fs htail hsrc
      | true =>
        cases hcff : cf src filename with
        | none =>
          simp only [copy_ensemble_files, hsome, if_true, hcff]
          exact ih (fs.copy2 src dst filename) htail
            (by rw [copy2_contents_ne fs src dst filename src f hne]; exact hsrc)
        | some e =>
          simp only [copy_ensemble_files, hsome, if_true, hcff]
          exact ih fs htail hsrc
    · have hhead : f = filename := by
        rcases List.mem_cons.mp hmem with h | h
        · exact h
        · exact absurd h htail
      subst hhead
      have hsome : (fs.contents src f).isSome = true := by rw [hsrc]; rfl
      simp only [copy_ensemble_files, hsome, if_true, hcf]
      rw [copy_frame_file cf src dst _ rest f htail dst]
      simp [FS.copy2, hsrc]

/-! ### String and candidate-list lemmas -/

/-- Appending the suffix makes `py_endswith` true. -/
theorem py_endswith_append (a b : String) : py_endswith (a ++ b) b = true := by
  simp only [py_endswith, String.data_append]
  exact List.isSuffixOf_iff_suffix.mpr (List.suffix_append _ _)

/-- A name that does not end with the output suffix differs from every
destination-directory name. -/
theorem ne_append_suffix_of_not_endswith (c a : String)
    (h : py_endswith c output_suffix = false) : c ≠ a ++ output_suffix := by
  intro hc
  rw [hc, py_endswith_append] at h
  cases h

/-- No directory is its own destination directory. -/
theorem ne_self_append_suffix (a : String) : a ≠ a ++ output_suffix := by
  intro h
  have hd : a.data = a.data ++ output_suffix.data := by
    have := congrArg String.data h
    rwa [String.data_append] at this
  have hlen := congrArg List.length hd
  rw [List.length_append] at hlen
  simp [output_suffix] at hlen

/-- Members of the candidate list are directories whose name does not end with
the output-suffix marker. -/
theorem candidate_not_endswith (fs : FS) (c : String) (hc : c ∈ candidate_subdirs fs) :
    py_endswith c output_suffix = false := by
  simp only [candidate_subdirs, List.mem_map, List.mem_filter] at hc
  obtain ⟨e, ⟨_, he⟩, rfl⟩ := hc
  rcases Bool.and_eq_true_iff.mp he with ⟨_, hn⟩
  simpa using hn

/-- The candidate list reads only the entry list. -/
theorem candidate_subdirs_congr (fs fs' : FS) (h : fs'.entries = fs.entries) :
    candidate_subdirs fs' = candidate_subdirs fs := by
  simp only [candidate_subdirs, h]

/-- Appending entries that all carry the output suffix does not change the
candidate list. -/
theorem candidate_subdirs_append (fs fs' : FS) (ext : List (String × Bool))
    (h : fs'.entries = fs.entries ++ ext)
    (hext : ∀ p ∈ ext, py_endswith p.1 output_suffix = true) :
    candidate_subdirs fs' = candidate_subdirs fs := by
  simp only [candidate_subdirs, h, List.filter_append]
  have : ext.filter (fun e => e.2 && !(py_endswith e.1 output_suffix)) = [] := by
    apply List.filter_eq_nil_iff.mpr
    intro p hp
    simp [hext p hp]
  rw [this, List.append_nil]

instance : IsTotal String strle :=
  ⟨fun a b => le_total a.data b.data⟩

instance : IsTrans String strle :=
  ⟨fun _ _ _ h h' => le_trans h h'⟩

instance : IsAntisymm String strle :=
  ⟨fun a b h h' => by
    cases a with
    | mk da =>
      cases b with
      | mk db => exact congrArg String.mk (le_antisymm h h')⟩

/-! ### Claim theorems on the copy operation -/

/-- C1: each filename in the list is classified into exactly one of the three
outcome lists of `copy_ensemble_files`, so the sizes satisfy
`copied.length + missing.length + errors.length = required_files.length`. -/
theorem claim1_copy_outcome_partition (copyFail : String → String → Option String)
    (source_dir dest_dir : String) (fs : FS) (required_files : List String) :
    (copy_ensemble_files copyFail source_dir dest_dir fs required_files).2.1.copied.length +
    (copy_ensemble_files copyFail source_dir dest_dir fs required_files).2.1.missing.length +
    (copy_ensemble_files copyFail source_dir dest_dir fs required_files).2.1.errors.length =
    required_files.length :=
  copy_counts copyFail source_dir dest_dir fs required_files

/-- C8: a copy failure for a filename whose source exists is caught, recorded
in the errors list as the filename together with the failure's textual
description, and the batch still processes every filename (the three outcome
lists cover the whole list, so nothing aborts or escapes). -/
theorem claim8_copy_failure_nonfatal (copyFail : String → String → Option String)
    (source_dir dest_dir : String) (fs : FS) (required_files : List String)
    (f e : String) (hne : source_dir ≠ dest_dir) (hmem : f ∈ required_files)
    (hsrc : (fs.contents source_dir f).isSome = true)
    (hfail : copyFail source_dir f = some e) :
    (f ++ ": " ++ e) ∈
      (copy_ensemble_files copyFail source_dir dest_dir fs required_files).2.1.errors ∧
    (copy_ensemble_files copyFail source_dir dest_dir fs required_files).2.1.copied.length +
    (copy_ensemble_files copyFail source_dir dest_dir fs required_files).2.1.missing.length +
    (copy_ensemble_files copyFail source_dir dest_dir fs required_files).2.1.errors.length =
    required_files.length := by
  refine ⟨?_, copy_counts copyFail source_dir dest_dir fs required_files⟩
  induction required_files generalizing fs with
  | nil => cases hmem
  | cons filename rest ih =>
    by_cases htail : f ∈ rest
    · cases hsome : (fs.contents source_dir filename).isSome with
      | false =>
        simp only [copy_ensemble_files, hsome, Bool.false_eq_true, if_false]
        exact ih fs htail hsrc
      | true =>
        cases hcf : copyFail source_dir filename with
        | none =>
          simp only [copy_ensemble_files, hsome, if_true, hcf]
          refine ih (fs.copy2 source_dir dest_dir filename) htail ?_
          rw [copy2_contents_ne fs source_dir dest_dir filename source_dir f hne]
          exact hsrc
        | some e' =>
          simp only [copy_ensemble_files, hsome, if_true, hcf]
          exact List.mem_cons_of_mem _ (ih fs htail hsrc)
    · have hhead : f = filename := by
        rcases List.mem_cons.mp hmem with h | h
        · exact h
        · exact absurd h htail
      subst hhead
      simp only [copy_ensemble_files, hsrc, if_true, hfail]
      exact List.mem_cons_self _ _

/-- C10: with an empty required-filename list the copy operation returns the
untouched filesystem, three empty outcome lists and no output, and a candidate
processed with an empty list leaves all three file counters unchanged. -/
theorem claim10_empty_required_list (copyFail : String → String → Option String)
    (source_dir dest_dir : String) (fs : FS) :
    copy_ensemble_files copyFail source_dir dest_dir fs [] = (fs, ⟨[], [], []⟩, []) ∧
    ∀ (env : Env) (total : Nat) (st : RunState) (name : String),
      (process_candidate env [] total st name).summary.total_copied =
        st.summary.total_copied ∧
      (process_candidate env [] total st name).summary.total_missing =
        st.summary.total_missing ∧
      (process_candidate env [] total st name).summary.total_errors =
        st.summary.total_errors := by
  refine ⟨rfl, ?_⟩
  intro env total st name
  by_cases hex : st.fs.existsEntry (name ++ output_suffix)
  · by_cases hans : py_lower (py_strip (env.answer name)) ≠ "y"
    · simp [process_candidate, hex, hans]
    · simp [process_candidate, hex, hans, copy_phase, copy_ensemble_files]
  · simp [process_candidate, hex, copy_phase, copy_ensemble_files]

/-! ### Claim theorems on the orchestrator's branches -/

/-- C6: when the input path does not exist, or is not a directory, the run
exits with status 1, printing exactly one error line that ends with the path,
and the filesystem is returned untouched (no directory created, no file
copied). -/
theorem claim6_invalid_input_path (env : Env) (input_dir : String) (fs : FS)
    (required_files : Option (List String))
    (h : env.input_exists = false ∨ env.input_is_dir = false) :
    ∃ pre, process_ensembles env input_dir fs required_files =
      .exited 1 fs [pre ++ input_dir] := by
  rcases h with h | h
  · exact ⟨"Error: Input path does not exist: ", by simp [process_ensembles, h]⟩
  · cases hex : env.input_exists with
    | false => exact ⟨"Error: Input path does not exist: ", by simp [process_ensembles, hex]⟩
    | true =>
      exact ⟨"Error: Input path is not a directory: ", by simp [process_ensembles, hex, h]⟩

/-- C7: a candidate whose destination directory exists and whose prompt answer
is not an affirmative (case-insensitively "y" after stripping) is skipped: the
skipped and processed counters each grow by one, the created counter is
unchanged, and the filesystem — in particular every file in that destination
directory — is untouched. -/
theorem claim7_decline_skips_candidate (env : Env) (required : List String) (total : Nat)
    (st : RunState) (name : String)
    (hex : st.fs.existsEntry (name ++ output_suffix) = true)
    (hans : py_lower (py_strip (env.answer name)) ≠ "y") :
    (process_candidate env required total st name).summary.skipped =
      st.summary.skipped + 1 ∧
    (process_candidate env required total st name).summary.processed =
      st.summary.processed + 1 ∧
    (process_candidate env required total st name).summary.created =
      st.summary.created ∧
    (process_candidate env required total st name).fs = st.fs := by
  simp [process_candidate, hex, hans]

/-- C9: a candidate whose destination directory exists and whose prompt is
answered affirmatively reuses the destination (the entry list is unchanged, so
nothing is deleted or recreated), increments processed but not created, leaves
destination files outside the required set untouched, and replaces each
required file present at the source (whose copy succeeds) with the source's
data-and-metadata. -/
theorem claim9_overwrite_in_place (env : Env) (required : List String) (total : Nat)
    (st : RunState) (name f g v : String)
    (hex : st.fs.existsEntry (name ++ output_suffix) = true)
    (hans : py_lower (py_strip (env.answer name)) = "y")
    (hf : f ∉ required) (hg : g ∈ required)
    (hsrc : st.fs.contents name g = some v)
    (hcf : env.copyFail name g = none) :
    (process_candidate env required total st name).fs.entries = st.fs.entries ∧
    (process_candidate env required total st name).summary.created =
      st.summary.created ∧
    (process_candidate env required total st name).summary.processed =
      st.summary.processed + 1 ∧
    (process_candidate env required total st name).fs.contents
      (name ++ output_suffix) f = st.fs.contents (name ++ output_suffix) f ∧
    (process_candidate env required total st name).fs.contents
      (name ++ output_suffix) g = some v := by
  have hne : name ≠ name ++ output_suffix := ne_self_append_suffix name
  have hpc : process_candidate env required total st name =
      copy_phase env required name (name ++ output_suffix) st.fs st.summary
        (st.out ++ ["\n[" ++ toString (st.summary.processed + 1) ++ "/" ++ toString total ++
            "] Processing: " ++ name,
          "  → Destination already exists: " ++ (name ++ output_suffix),
          "    Overwrite contents? (y/n): "]) := by
    simp [process_candidate, hex, hans]
  rw [hpc]
  refine ⟨?_, ?_, ?_, ?_, ?_⟩
  · simpa [copy_phase] using
      copy_entries env.copyFail name (name ++ output_suffix) st.fs required
  · simp [copy_phase]
  · simp [copy_phase]
  · simpa [copy_phase] using
      copy_frame_file env.copyFail name (name ++ output_suffix) st.fs required f hf
        (name ++ output_suffix)
  · simpa [copy_phase] using
      copy_sets_dest env.copyFail name (name ++ output_suffix) st.fs required g v hne hg
        hsrc hcf

/-! ### The loop invariant behind the summary equation -/

/-- Every branch of `process_candidate` increments `processed` by one. -/
theorem pc_processed (env : Env) (required : List String) (total : Nat)
    (st : RunState) (name : String) :
    (process_candidate env required total st name).summary.processed =
      st.summary.processed + 1 := by
  by_cases hex : st.fs.existsEntry (name ++ output_suffix)
  · by_cases hans : py_lower (py_strip (env.answer name)) ≠ "y"
    · simp [process_candidate, hex, hans]
    · simp [process_candidate, hex, hans, copy_phase]
  · simp [process_candidate, hex, copy_phase]

/-- One candidate preserves the summary equation
`copied + missing + errors = required.length * (processed - skipped)`. -/
theorem pc_totals_invariant (env : Env) (required : List String) (total : Nat)
    (st : RunState) (name : String)
    (h : st.summary.total_copied + st.summary.total_missing + st.summary.total_errors =
      required.length * (st.summary.processed - st.summary.skipped))
    (hle : st.summary.skipped ≤ st.summary.processed) :
    ((process_candidate env required total st name).summary.total_copied +
      (process_candidate env required total st name).summary.total_missing +
      (process_candidate env required total st name).summary.total_errors =
      required.length * ((process_candidate env required total st name).summary.processed -
        (process_candidate env required total st name).summary.skipped)) ∧
    (process_candidate env required total st name).summary.skipped ≤
      (process_candidate env required total st name).summary.processed := by
  by_cases hex : st.fs.existsEntry (name ++ output_suffix)
  · by_cases hans : py_lower (py_strip (env.answer name)) ≠ "y"
    · have heq : st.summary.processed + 1 - (st.summary.skipped + 1) =
          st.summary.processed - st.summary.skipped := by omega
      constructor
      · simp [process_candidate, hex, hans, heq, h]
      · simp only [process_candidate, hex, if_true]
        simp [hans]
        omega
    · have hcount := copy_counts env.copyFail name (name ++ output_suffix) st.fs required
      have hstep : st.summary.processed + 1 - st.summary.skipped =
          (st.summary.processed - st.summary.skipped) + 1 := by omega
      constructor
      · simp [process_candidate, hex, hans, copy_phase, hstep, Nat.mul_succ]
        omega
      · simp [process_candidate, hex, hans, copy_phase]
        omega
  · have hcount := copy_counts env.copyFail name (name ++ output_suffix)
      (st.fs.mkdir (name ++ output_suffix)) required
    have hstep : st.summary.processed + 1 - st.summary.skipped =
        (st.summary.processed - st.summary.skipped) + 1 := by omega
    constructor
    · simp [process_candidate, hex, copy_phase, hstep, Nat.mul_succ]
      omega
    · simp [process_candidate, hex, copy_phase]
      omega

/-- The loop preserves the summary equation. -/
theorem rl_totals_invariant (env : Env) (required : List String) (total : Nat)
    (names : List String) (st : RunState)
    (h : st.summary.total_copied + st.summary.total_missing + st.summary.total_errors =
      required.length * (st.summary.processed - st.summary.skipped))
    (hle : st.summary.skipped ≤ st.summary.processed) :
    ((run_loop env required total st names).summary.total_copied +
      (run_loop env required total st names).summary.total_missing +
      (run_loop env required total st names).summary.total_errors =
      required.length * ((run_loop env required total st names).summary.processed -
        (run_loop env required total st names).summary.skipped)) ∧
    (run_loop env required total st names).summary.skipped ≤
      (run_loop env required total st names).summary.processed := by
  induction names generalizing st with
  | nil => exact ⟨h, hle⟩
  | cons name rest ih =>
    obtain ⟨h', hle'⟩ := pc_totals_invariant env required total st name h hle
    exact ih (process_candidate env required total st name) h' hle'

/-- The loop increments `processed` once per candidate. -/
theorem rl_processed (env : Env) (required : List String) (total : Nat)
    (names : List String) (st : RunState) :
    (run_loop env required total st names).summary.processed =
      st.summary.processed + names.length := by
  induction names generalizing st with
  | nil => rfl
  | cons name rest ih =>
    rw [run_loop, ih, pc_processed, List.length_cons]
    omega

/-- C2: on every completed run, the three aggregate file counters satisfy
`total_copied + total_missing + total_errors =
 required.length * (processed - skipped)`, where `processed - skipped` is the
number of candidates actually copied into (user-skipped candidates contribute
zero to all three), and every candidate is processed exactly once. -/
theorem claim2_summary_totals (env : Env) (input_dir : String) (fs : FS)
    (required_files : Option (List String)) (fs' : FS) (s : Summary) (out : List String)
    (h : process_ensembles env input_dir fs required_files = .finished fs' s out) :
    s.skipped ≤ s.processed ∧
    s.total_copied + s.total_missing + s.total_errors =
      (required_files.getD default_required).length * (s.processed - s.skipped) ∧
    s.processed = (candidate_subdirs fs).length := by
  unfold process_ensembles at h
  cases hex : env.input_exists with
  | false => rw [hex] at h; simp at h
  | true =>
    cases hdir : env.input_is_dir with
    | false => rw [hex, hdir] at h; simp at h
    | true =>
      cases hempty : (candidate_subdirs fs).isEmpty with
      | true => rw [hex, hdir] at h; simp [hempty] at h
      | false =>
        rw [hex, hdir] at h
        simp only [Bool.not_true, Bool.false_eq_true, if_false, hempty,
          RunResult.finished.injEq] at h
        obtain ⟨-, hs, -⟩ := h
        subst hs
        have hinv := rl_totals_invariant env (required_files.getD default_required)
          (candidate_subdirs fs).length
          ((candidate_subdirs fs).insertionSort strle)
          ⟨fs, ⟨0, 0, 0, 0, 0, 0⟩,
            ["\nProcessing " ++ toString (candidate_subdirs fs).length ++
                " subdirectories in: " ++ input_dir,
              "Required files: " ++
                String.intercalate ", " (required_files.getD default_required) ++ "\n",
              eq80]⟩ (by simp) (by simp)
        have hproc := rl_processed env (required_files.getD default_required)
          (candidate_subdirs fs).length
          ((candidate_subdirs fs).insertionSort strle)
          ⟨fs, ⟨0, 0, 0, 0, 0, 0⟩,
            ["\nProcessing " ++ toString (candidate_subdirs fs).length ++
                " subdirectories in: " ++ input_dir,
              "Required files: " ++
                String.intercalate ", " (required_files.getD default_required) ++ "\n",
              eq80]⟩
        refine ⟨hinv.2, hinv.1, ?_⟩
        rw [hproc, (List.perm_insertionSort strle (candidate_subdirs fs)).length_eq]
        simp

/-! ### Structural lemmas about one candidate step -/

/-- A candidate step either leaves the entry list unchanged or appends exactly
the new destination directory. -/
theorem pc_entries (env : Env) (required : List String) (total : Nat)
    (st : RunState) (name : String) :
    (process_candidate env required total st name).fs.entries = st.fs.entries ∨
    (process_candidate env required total st name).fs.entries =
      st.fs.entries ++ [(name ++ output_suffix, true)] := by
  by_cases hex : st.fs.existsEntry (name ++ output_suffix)
  · by_cases hans : py_lower (py_strip (env.answer name)) ≠ "y"
    · left; simp [process_candidate, hex, hans]
    · left; simp [process_candidate, hex, hans, copy_phase, copy_entries]
  · right; simp [process_candidate, hex, copy_phase, copy_entries, FS.mkdir]

/-- Entries are never removed: an existing entry still exists after a step. -/
theorem pc_exists_mono (env : Env) (required : List String) (total : Nat)
    (st : RunState) (name n : String) (h : st.fs.existsEntry n = true) :
    (process_candidate env required total st name).fs.existsEntry n = true := by
  simp only [FS.existsEntry] at h ⊢
  rcases pc_entries env required total st name with he | he
  · rw [he]; exact h
  · rw [he, List.any_append, h, Bool.true_or]

/-- After a candidate step, the candidate's destination directory exists. -/
theorem pc_exists_dest (env : Env) (required : List String) (total : Nat)
    (st : RunState) (name : String) :
    (process_candidate env required total st name).fs.existsEntry
      (name ++ output_suffix) = true := by
  by_cases hex : st.fs.existsEntry (name ++ output_suffix)
  · exact pc_exists_mono env required total st name _ hex
  · simp only [process_candidate, hex, Bool.false_eq_true, if_false, copy_phase]
    simp only [FS.existsEntry, copy_entries, FS.mkdir, List.any_append]
    simp

/-- A candidate step writes only into its destination directory: the contents
of every directory whose name does not end with the output suffix are
untouched. -/
theorem pc_frame (env : Env) (required : List String) (total : Nat)
    (st : RunState) (name d : String)
    (hd : py_endswith d output_suffix = false) (f : String) :
    (process_candidate env required total st name).fs.contents d f =
      st.fs.contents d f := by
  have hne : d ≠ name ++ output_suffix := ne_append_suffix_of_not_endswith d name hd
  by_cases hex : st.fs.existsEntry (name ++ output_suffix)
  · by_cases hans : py_lower (py_strip (env.answer name)) ≠ "y"
    · simp [process_candidate, hex, hans]
    · simp only [process_candidate, hex, if_true]
      simp only [ne_eq, hans, not_true_eq_false, if_false, copy_phase]
      exact copy_frame env.copyFail name (name ++ output_suffix) st.fs required d f hne
  · simp only [process_candidate, hex, Bool.false_eq_true, if_false, copy_phase]
    exact copy_frame env.copyFail name (name ++ output_suffix)
      (st.fs.mkdir (name ++ output_suffix)) required d f hne

/-- Output lines are only appended by a candidate step. -/
theorem pc_out_superset (env : Env) (required : List String) (total : Nat)
    (st : RunState) (name x : String) (h : x ∈ st.out) :
    x ∈ (process_candidate env required total st name).out := by
  by_cases hex : st.fs.existsEntry (name ++ output_suffix)
  · by_cases hans : py_lower (py_strip (env.answer name)) ≠ "y"
    · simp [process_candidate, hex, hans, List.mem_append, h]
    · simp [process_candidate, hex, hans, copy_phase, List.mem_append, h]
  · simp [process_candidate, hex, copy_phase, List.mem_append, h]

/-- When the destination already exists, the step prints the
destination-already-exists line for that candidate. -/
theorem pc_out_prompt (env : Env) (required : List String) (total : Nat)
    (st : RunState) (name : String)
    (hex : st.fs.existsEntry (name ++ output_suffix) = true) :
    ("  → Destination already exists: " ++ (name ++ output_suffix)) ∈
      (process_candidate env required total st name).out := by
  by_cases hans : py_lower (py_strip (env.answer name)) ≠ "y"
  · simp [process_candidate, hex, hans, List.mem_append]
  · simp [process_candidate, hex, hans, copy_phase, List.mem_append]

/-- When the destination exists and the answer is affirmative, neither
`created` nor `skipped` moves. -/
theorem pc_overwrite_counters (env : Env) (required : List String) (total : Nat)
    (st : RunState) (name : String)
    (hex : st.fs.existsEntry (name ++ output_suffix) = true)
    (hans : py_lower (py_strip (env.answer name)) = "y") :
    (process_candidate env required total st name).summary.created =
      st.summary.created ∧
    (process_candidate env required total st name).summary.skipped =
      st.summary.skipped := by
  constructor <;> simp [process_candidate, hex, hans, copy_phase]

/-- With an affirmative answer, a candidate step adds exactly the outcome
counts of `copy_ensemble_files` on the current filesystem (whether or not the
destination had to be created first — `mkdir` does not change any contents). -/
theorem pc_yes_increments (env : Env) (required : List String) (total : Nat)
    (st : RunState) (name : String)
    (hans : py_lower (py_strip (env.answer name)) = "y") :
    (process_candidate env required total st name).summary.total_copied =
      st.summary.total_copied +
      (copy_ensemble_files env.copyFail name (name ++ output_suffix)
        st.fs required).2.1.copied.length ∧
    (process_candidate env required total st name).summary.total_missing =
      st.summary.total_missing +
      (copy_ensemble_files env.copyFail name (name ++ output_suffix)
        st.fs required).2.1.missing.length ∧
    (process_candidate env required total st name).summary.total_errors =
      st.summary.total_errors +
      (copy_ensemble_files env.copyFail name (name ++ output_suffix)
        st.fs required).2.1.errors.length := by
  by_cases hex : st.fs.existsEntry (name ++ output_suffix)
  · refine ⟨?_, ?_, ?_⟩ <;> simp [process_candidate, hex, hans, copy_phase]
  · have hmk : (copy_ensemble_files env.copyFail name (name ++ output_suffix)
        (st.fs.mkdir (name ++ output_suffix)) required).2 =
        (copy_ensemble_files env.copyFail name (name ++ output_suffix)
          st.fs required).2 :=
      copy_congr env.copyFail name (name ++ output_suffix) _ _ required
        (ne_self_append_suffix name) (fun _ => rfl)
    refine ⟨?_, ?_, ?_⟩ <;>
      simp [process_candidate, hex, copy_phase, hmk]

/-! ### Structural lemmas about the whole loop -/

/-- Entries are never removed by the loop. -/
theorem rl_exists_mono (env : Env) (required : List String) (total : Nat)
    (names : List String) (st : RunState) (n : String)
    (h : st.fs.existsEntry n = true) :
    (run_loop env required total st names).fs.existsEntry n = true := by
  induction names generalizing st with
  | nil => exact h
  | cons name rest ih =>
    exact ih (process_candidate env required total st name)
      (pc_exists_mono env required total st name n h)

/-- After the loop, every processed candidate's destination directory exists. -/
theorem rl_exists_dest (env : Env) (required : List String) (total : Nat)
    (names : List String) (st : RunState) :
    ∀ c ∈ names, (run_loop env required total st names).fs.existsEntry
      (c ++ output_suffix) = true := by
  induction names generalizing st with
  | nil => intro c hc; cases hc
  | cons name rest ih =>
    intro c hc
    rcases List.mem_cons.mp hc with rfl | hc'
    · exact rl_exists_mono env required total rest _ _
        (pc_exists_dest env required total st c)
    · exact ih (process_candidate env required total st name) c hc'

/-- The loop writes only into destination directories: the contents of every
directory whose name does not end with the output suffix are untouched. -/
theorem rl_frame (env : Env) (required : List String) (total : Nat)
    (names : List String) (st : RunState) (d : String)
    (hd : py_endswith d output_suffix = false) (f : String) :
    (run_loop env required total st names).fs.contents d f = st.fs.contents d f := by
  induction names generalizing st with
  | nil => rfl
  | cons name rest ih =>
    rw [show run_loop env required total st (name :: rest) =
      run_loop env required total (process_candidate env required total st name) rest from rfl]
    rw [ih (process_candidate env required total st name)]
    exact pc_frame env required total st name d hd f

/-- Output lines are only appended by the loop. -/
theorem rl_out_superset (env : Env) (required : List String) (total : Nat)
    (names : List String) (st : RunState) (x : String) (h : x ∈ st.out) :
    x ∈ (run_loop env required total st names).out := by
  induction names generalizing st with
  | nil => exact h
  | cons name rest ih =>
    exact ih (process_candidate env required total st name)
      (pc_out_superset env required total st name x h)

/-- When every candidate's destination exists before the loop, the loop prints
the destination-already-exists line for each candidate. -/
theorem rl_prompts (env : Env) (required : List String) (total : Nat)
    (names : List String) (st : RunState)
    (hex : ∀ c ∈ names, st.fs.existsEntry (c ++ output_suffix) = true) :
    ∀ c ∈ names, ("  → Destination already exists: " ++ (c ++ output_suffix)) ∈
      (run_loop env required total st names).out := by
  induction names generalizing st with
  | nil => intro c hc; cases hc
  | cons name rest ih =>
    intro c hc
    rcases List.mem_cons.mp hc with rfl | hc'
    · exact rl_out_superset env required total rest _ _
        (pc_out_prompt env required total st c (hex c (List.mem_cons_self _ _)))
    · exact ih (process_candidate env required total st name)
        (fun c' hc'' => pc_exists_mono env required total st name _
          (hex c' (List.mem_cons_of_mem _ hc''))) c hc'

/-- When every destination exists and every answer is affirmative, the loop
moves neither the `created` nor the `skipped` counter. -/
theorem rl_no_create_no_skip (env : Env) (required : List String) (total : Nat)
    (names : List String) (st : RunState)
    (hex : ∀ c ∈ names, st.fs.existsEntry (c ++ output_suffix) = true)
    (hyes : ∀ c ∈ names, py_lower (py_strip (env.answer c)) = "y") :
    (run_loop env required total st names).summary.created = st.summary.created ∧
    (run_loop env required total st names).summary.skipped = st.summary.skipped := by
  induction names generalizing st with
  | nil => exact ⟨rfl, rfl⟩
  | cons name rest ih =>
    have hpc := pc_overwrite_counters env required total st name
      (hex name (List.mem_cons_self _ _)) (hyes name (List.mem_cons_self _ _))
    have := ih (process_candidate env required total st name)
      (fun c' hc'' => pc_exists_mono env required total st name _
        (hex c' (List.mem_cons_of_mem _ hc'')))
      (fun c' hc'' => hyes c' (List.mem_cons_of_mem _ hc''))
    exact ⟨this.1.trans hpc.1, this.2.trans hpc.2⟩

/-- The entries grow only by destination directories, all of which carry the
output suffix. -/
theorem rl_entries_ext (env : Env) (required : List String) (total : Nat)
    (names : List String) (st : RunState) :
    ∃ ext, (run_loop env required total st names).fs.entries = st.fs.entries ++ ext ∧
      ∀ p ∈ ext, py_endswith p.1 output_suffix = true := by
  induction names generalizing st with
  | nil => exact ⟨[], (List.append_nil _).symm, fun p hp => absurd hp (List.not_mem_nil p)⟩
  | cons name rest ih =>
    obtain ⟨ext, hext, hall⟩ := ih (process_candidate env required total st name)
    rcases pc_entries env required total st name with he | he
    · refine ⟨ext, ?_, hall⟩
      rw [show run_loop env required total st (name :: rest) =
        run_loop env required total (process_candidate env required total st name) rest
        from rfl, hext, he]
    · refine ⟨[(name ++ output_suffix, true)] ++ ext, ?_, ?_⟩
      · rw [show run_loop env required total st (name :: rest) =
          run_loop env required total (process_candidate env required total st name) rest
          from rfl, hext, he, List.append_assoc]
      · intro p hp
        rcases List.mem_append.mp hp with hp | hp
        · rcases List.mem_singleton.mp hp with rfl
          exact py_endswith_append name output_suffix
        · exact hall p hp

/-- Two runs of the loop over the same candidates whose answers are all
affirmative and whose filesystems agree on every candidate's source row add
the same amounts to the three file counters. -/
theorem rl_totals_congr (env : Env) (required : List String) (total total' : Nat)
    (names : List String) (st st' : RunState)
    (hno : ∀ c ∈ names, py_endswith c output_suffix = false)
    (hyes : ∀ c ∈ names, py_lower (py_strip (env.answer c)) = "y")
    (hrow : ∀ c ∈ names, ∀ f, st.fs.contents c f = st'.fs.contents c f) :
    (run_loop env required total st names).summary.total_copied +
      st'.summary.total_copied =
      (run_loop env required total' st' names).summary.total_copied +
      st.summary.total_copied ∧
    (run_loop env required total st names).summary.total_missing +
      st'.summary.total_missing =
      (run_loop env required total' st' names).summary.total_missing +
      st.summary.total_missing ∧
    (run_loop env required total st names).summary.total_errors +
      st'.summary.total_errors =
      (run_loop env required total' st' names).summary.total_errors +
      st.summary.total_errors := by
  induction names generalizing st st' with
  | nil => exact ⟨Nat.add_comm _ _, Nat.add_comm _ _, Nat.add_comm _ _⟩
  | cons name rest ih =>
    have hme := List.mem_cons_self name rest
    have hK : (copy_ensemble_files env.copyFail name (name ++ output_suffix)
        st.fs required).2 =
        (copy_ensemble_files env.copyFail name (name ++ output_suffix)
          st'.fs required).2 :=
      copy_congr env.copyFail name (name ++ output_suffix) st.fs st'.fs required
        (ne_self_append_suffix name) (hrow name hme)
    have h1 := pc_yes_increments env required total st name (hyes name hme)
    have h2 := pc_yes_increments env required total' st' name (hyes name hme)
    have hrow' : ∀ c ∈ rest, ∀ f,
        (process_candidate env required total st name).fs.contents c f =
        (process_candidate env required total' st' name).fs.contents c f := by
      intro c hc f
      rw [pc_frame env required total st name c (hno c (List.mem_cons_of_mem _ hc)) f,
        pc_frame env required total' st' name c (hno c (List.mem_cons_of_mem _ hc)) f]
      exact hrow c (List.mem_cons_of_mem _ hc) f
    obtain ⟨t1, t2, t3⟩ := ih (process_candidate env required total st name)
      (process_candidate env required total' st' name)
      (fun c hc => hno c (List.mem_cons_of_mem _ hc))
      (fun c hc => hyes c (List.mem_cons_of_mem _ hc)) hrow'
    have hKc : (copy_ensemble_files env.copyFail name (name ++ output_suffix)
        st.fs required).2.1.copied.length =
        (copy_ensemble_files env.copyFail name (name ++ output_suffix)
          st'.fs required).2.1.copied.length := by rw [hK]
    have hKm : (copy_ensemble_files env.copyFail name (name ++ output_suffix)
        st.fs required).2.1.missing.length =
        (copy_ensemble_files env.copyFail name (name ++ output_suffix)
          st'.fs required).2.1.missing.length := by rw [hK]
    have hKe : (copy_ensemble_files env.copyFail name (name ++ output_suffix)
        st.fs required).2.1.errors.length =
        (copy_ensemble_files env.copyFail name (name ++ output_suffix)
          st'.fs required).2.1.errors.length := by rw [hK]
    refine ⟨?_, ?_, ?_⟩
    · rw [show run_loop env required total st (name :: rest) =
        run_loop env required total (process_candidate env required total st name) rest
        from rfl,
        show run_loop env required total' st' (name :: rest) =
        run_loop env required total' (process_candidate env required total' st' name) rest
        from rfl]
      omega
    · rw [show run_loop env required total st (name :: rest) =
        run_loop env required total (process_candidate env required total st name) rest
        from rfl,
        show run_loop env required total' st' (name :: rest) =
        run_loop env required total' (process_candidate env required total' st' name) rest
        from rfl]
      omega
    · rw [show run_loop env required total st (name :: rest) =
        run_loop env required total (process_candidate env required total st name) rest
        from rfl,
        show run_loop env required total' st' (name :: rest) =
        run_loop env required total' (process_candidate env required total' st' name) rest
        from rfl]
      omega

/-! ### Candidate selection and ordering claims -/

/-- C4: a child directory whose name ends with the output-suffix marker is
never selected as a candidate, and never appears in the sorted processing
sequence, so repeated runs never nest `_final_results` directories. -/
theorem claim4_output_dirs_never_candidates (fs : FS) (name : String)
    (h : py_endswith name output_suffix = true) :
    name ∉ candidate_subdirs fs ∧
    name ∉ (candidate_subdirs fs).insertionSort strle := by
  have h1 : name ∉ candidate_subdirs fs := by
    intro hc
    rw [candidate_not_endswith fs name hc] at h
    cases h
  refine ⟨h1, fun hc => h1 ?_⟩
  exact (List.perm_insertionSort strle (candidate_subdirs fs)).mem_iff.mp hc

/-- C5: the processing sequence is the name-sorted permutation of the
candidate set: it is sorted by the Python string order, it is a permutation of
the candidates, and it is identical for any filesystem enumeration order of
the root's entries. -/
theorem claim5_deterministic_order (fs fs' : FS)
    (hperm : List.Perm fs.entries fs'.entries) :
    ((candidate_subdirs fs).insertionSort strle).Sorted strle ∧
    List.Perm ((candidate_subdirs fs).insertionSort strle) (candidate_subdirs fs) ∧
    (candidate_subdirs fs).insertionSort strle =
      (candidate_subdirs fs').insertionSort strle := by
  refine ⟨List.sorted_insertionSort strle _, List.perm_insertionSort strle _, ?_⟩
  have hcand : List.Perm (candidate_subdirs fs) (candidate_subdirs fs') :=
    (hperm.filter _).map _
  exact List.eq_of_perm_of_sorted
    ((List.perm_insertionSort strle _).trans
      (hcand.trans (List.perm_insertionSort strle _).symm))
    (List.sorted_insertionSort strle _) (List.sorted_insertionSort strle _)

/-! ### The second run over an unchanged tree -/

/-- The initial loop state of a run: the input filesystem, zeroed counters and
the run header lines. -/
def init_state (fs : FS) (input_dir : String) (required : List String) : RunState :=
  ⟨fs, ⟨0, 0, 0, 0, 0, 0⟩,
    ["\nProcessing " ++ toString (candidate_subdirs fs).length ++
        " subdirectories in: " ++ input_dir,
      "Required files: " ++ String.intercalate ", " required ++ "\n",
      eq80]⟩

/-- A run with a valid input path and a nonempty candidate list completes, and
its result is the loop over the sorted candidates from the initial state. -/
theorem process_ensembles_finished (env : Env) (input_dir : String) (fs : FS)
    (required_files : Option (List String))
    (hex : env.input_exists = true) (hdir : env.input_is_dir = true)
    (hne : (candidate_subdirs fs).isEmpty = false) :
    process_ensembles env input_dir fs required_files =
      .finished
        (run_loop env (required_files.getD default_required) (candidate_subdirs fs).length
          (init_state fs input_dir (required_files.getD default_required))
          ((candidate_subdirs fs).insertionSort strle)).fs
        (run_loop env (required_files.getD default_required) (candidate_subdirs fs).length
          (init_state fs input_dir (required_files.getD default_required))
          ((candidate_subdirs fs).insertionSort strle)).summary
        ((run_loop env (required_files.getD default_required) (candidate_subdirs fs).length
            (init_state fs input_dir (required_files.getD default_required))
            ((candidate_subdirs fs).insertionSort strle)).out ++
          summary_block
            (run_loop env (required_files.getD default_required)
              (candidate_subdirs fs).length
              (init_state fs input_dir (required_files.getD default_required))
              ((candidate_subdirs fs).insertionSort strle)).summary) := by
  unfold process_ensembles init_state
  rw [hex, hdir]
  simp [hne]

/-- C3: running the tool twice on the same root with nothing changed in
between: both runs complete; after the first run every candidate's output
directory exists; the second run creates nothing and, with every prompt
answered affirmatively, skips nothing, prints the destination-already-exists
prompt line for every candidate, and ends with the same copied, missing and
error totals as the first run. -/
theorem claim3_second_run_idempotent (env : Env) (input_dir : String) (fs : FS)
    (required_files : Option (List String))
    (hex : env.input_exists = true) (hdir : env.input_is_dir = true)
    (hne : (candidate_subdirs fs).isEmpty = false)
    (hyes : ∀ c ∈ candidate_subdirs fs, py_lower (py_strip (env.answer c)) = "y") :
    ∃ fs₁ s₁ out₁ fs₂ s₂ out₂,
      process_ensembles env input_dir fs required_files = .finished fs₁ s₁ out₁ ∧
      process_ensembles env input_dir fs₁ required_files = .finished fs₂ s₂ out₂ ∧
      (∀ c ∈ candidate_subdirs fs, fs₁.existsEntry (c ++ output_suffix) = true) ∧
      s₂.created = 0 ∧ s₂.skipped = 0 ∧
      (∀ c ∈ candidate_subdirs fs,
        ("  → Destination already exists: " ++ (c ++ output_suffix)) ∈ out₂) ∧
      s₂.total_copied = s₁.total_copied ∧ s₂.total_missing = s₁.total_missing ∧
      s₂.total_errors = s₁.total_errors := by
  have smem : ∀ c : String,
      c ∈ (candidate_subdirs fs).insertionSort strle ↔ c ∈ candidate_subdirs fs :=
    fun c => (List.perm_insertionSort strle (candidate_subdirs fs)).mem_iff
  have hno : ∀ c ∈ (candidate_subdirs fs).insertionSort strle,
      py_endswith c output_suffix = false :=
    fun c hc => candidate_not_endswith fs c ((smem c).mp hc)
  have hyes' : ∀ c ∈ (candidate_subdirs fs).insertionSort strle,
      py_lower (py_strip (env.answer c)) = "y" :=
    fun c hc => hyes c ((smem c).mp hc)
  have h1 := process_ensembles_finished env input_dir fs required_files hex hdir hne
  have hdest : ∀ c ∈ candidate_subdirs fs,
      (run_loop env (required_files.getD default_required) (candidate_subdirs fs).length
        (init_state fs input_dir (required_files.getD default_required))
        ((candidate_subdirs fs).insertionSort strle)).fs.existsEntry
        (c ++ output_suffix) = true :=
    fun c hc => rl_exists_dest env _ _ _ _ c ((smem c).mpr hc)
  obtain ⟨ext, hext, hall⟩ := rl_entries_ext env (required_files.getD default_required)
    (candidate_subdirs fs).length ((candidate_subdirs fs).insertionSort strle)
    (init_state fs input_dir (required_files.getD default_required))
  have hcand : candidate_subdirs
      (run_loop env (required_files.getD default_required) (candidate_subdirs fs).length
        (init_state fs input_dir (required_files.getD default_required))
        ((candidate_subdirs fs).insertionSort strle)).fs = candidate_subdirs fs :=
    candidate_subdirs_append fs _ ext hext hall
  have hne2 : (candidate_subdirs
      (run_loop env (required_files.getD default_required) (candidate_subdirs fs).length
        (init_state fs input_dir (required_files.getD default_required))
        ((candidate_subdirs fs).insertionSort strle)).fs).isEmpty = false := by
    rw [hcand]; exact hne
  have h2 := process_ensembles_finished env input_dir
    (run_loop env (required_files.getD default_required) (candidate_subdirs fs).length
      (init_state fs input_dir (required_files.getD default_required))
      ((candidate_subdirs fs).insertionSort strle)).fs required_files hex hdir hne2
  rw [hcand] at h2
  have hex2 : ∀ c ∈ (candidate_subdirs fs).insertionSort strle,
      (init_state
        (run_loop env (required_files.getD default_required) (candidate_subdirs fs).length
          (init_state fs input_dir (required_files.getD default_required))
          ((candidate_subdirs fs).insertionSort strle)).fs input_dir
        (required_files.getD default_required)).fs.existsEntry (c ++ output_suffix) = true :=
    fun c hc => hdest c ((smem c).mp hc)
  have hns := rl_no_create_no_skip env (required_files.getD default_required)
    (candidate_subdirs fs).length ((candidate_subdirs fs).insertionSort strle)
    (init_state
      (run_loop env (required_files.getD default_required) (candidate_subdirs fs).length
        (init_state fs input_dir (required_files.getD default_required))
        ((candidate_subdirs fs).insertionSort strle)).fs input_dir
      (required_files.getD default_required)) hex2 hyes'
  have hpr := rl_prompts env (required_files.getD default_required)
    (candidate_subdirs fs).length ((candidate_subdirs fs).insertionSort strle)
    (init_state
      (run_loop env (required_files.getD default_required) (candidate_subdirs fs).length
        (init_state fs input_dir (required_files.getD default_required))
        ((candidate_subdirs fs).insertionSort strle)).fs input_dir
      (required_files.getD default_required)) hex2
  have hrow : ∀ c ∈ (candidate_subdirs fs).insertionSort strle, ∀ f,
      (init_state fs input_dir (required_files.getD default_required)).fs.contents c f =
      (init_state
        (run_loop env (required_files.getD default_required) (candidate_subdirs fs).length
          (init_state fs input_dir (required_files.getD default_required))
          ((candidate_subdirs fs).insertionSort strle)).fs input_dir
        (required_files.getD default_required)).fs.contents c f :=
    fun c hc f => (rl_frame env (required_files.getD default_required)
      (candidate_subdirs fs).length ((candidate_subdirs fs).insertionSort strle)
      (init_state fs input_dir (required_files.getD default_required)) c (hno c hc) f).symm
  have htot := rl_totals_congr env (required_files.getD default_required)
    (candidate_subdirs fs).length (candidate_subdirs fs).length
    ((candidate_subdirs fs).insertionSort strle)
    (init_state fs input_dir (required_files.getD default_required))
    (init_state
      (run_loop env (required_files.getD default_required) (candidate_subdirs fs).length
        (init_state fs input_dir (required_files.getD default_required))
        ((candidate_subdirs fs).insertionSort strle)).fs input_dir
      (required_files.getD default_required)) hno hyes' hrow
  have hzc : ∀ (a : FS) (r : List String),
      (init_state a input_dir r).summary.total_copied = 0 := fun _ _ => rfl
  have hzm : ∀ (a : FS) (r : List String),
      (init_state a input_dir r).summary.total_missing = 0 := fun _ _ => rfl
  have hze : ∀ (a : FS) (r : List String),
      (init_state a input_dir r).summary.total_errors = 0 := fun _ _ => rfl
  refine ⟨_, _, _, _, _, _, h1, h2, hdest, hns.1.trans rfl, hns.2.trans rfl, ?_, ?_, ?_, ?_⟩
  · intro c hc
    exact List.mem_append_left _ (hpr c ((smem c).mpr hc))
  · have := htot.1
    simp only [hzc] at this
    omega
  · have := htot.2.1
    simp only [hzm] at this
    omega
  · have := htot.2.2
    simp only [hze] at this
    omega

/-! ### Concrete witnesses -/

/-- Projection of the filesystem out of a run result. -/
def RunResult.fsOf : RunResult → FS
  | .exited _ fs _ => fs
  | .finished fs _ _ => fs

/-- Projection of the summary out of a run result. -/
def RunResult.sumOf : RunResult → Summary
  | .exited _ _ _ => ⟨0, 0, 0, 0, 0, 0⟩
  | .finished _ s _ => s

/-- Projection of the output out of a run result. -/
def RunResult.outOf : RunResult → List String
  | .exited _ _ o => o
  | .finished _ _ o => o

/-- A small concrete input tree: two candidates, a plain file and a stale
output directory; `run_1` holds two of the three default files. -/
def demo_fs : FS :=
  ⟨[("run_2", true), ("run_1", true), ("notes.txt", false), ("old_final_results", true)],
    fun d f => if d = "run_1" ∧ (f = "topology.pdb" ∨ f = "sequence.fasta")
      then some (d ++ "/" ++ f) else none⟩

/-- An environment with a valid input path, all prompts answered "y" and a
copy primitive that never fails. -/
def demo_env : Env := ⟨true, true, fun _ => "y", fun _ _ => none⟩

/-- The concrete run of the tool on the demo tree. -/
def demo_run : RunResult := process_ensembles demo_env "/in" demo_fs none

/-- Witness for C2: the totals equation holds on the completed demo run. -/
theorem claim2_summary_totals_witness :
    demo_run.sumOf.skipped ≤ demo_run.sumOf.processed ∧
    demo_run.sumOf.total_copied + demo_run.sumOf.total_missing +
      demo_run.sumOf.total_errors =
      ((none : Option (List String)).getD default_required).length *
        (demo_run.sumOf.processed - demo_run.sumOf.skipped) ∧
    demo_run.sumOf.processed = (candidate_subdirs demo_fs).length :=
  claim2_summary_totals demo_env "/in" demo_fs none demo_run.fsOf demo_run.sumOf
    demo_run.outOf rfl

/-- Witness for C3: two consecutive runs on the demo tree. -/
theorem claim3_second_run_idempotent_witness :
    ∃ fs₁ s₁ out₁ fs₂ s₂ out₂,
      process_ensembles demo_env "/in" demo_fs none = .finished fs₁ s₁ out₁ ∧
      process_ensembles demo_env "/in" fs₁ none = .finished fs₂ s₂ out₂ ∧
      (∀ c ∈ candidate_subdirs demo_fs, fs₁.existsEntry (c ++ output_suffix) = true) ∧
      s₂.created = 0 ∧ s₂.skipped = 0 ∧
      (∀ c ∈ candidate_subdirs demo_fs,
        ("  → Destination already exists: " ++ (c ++ output_suffix)) ∈ out₂) ∧
      s₂.total_copied = s₁.total_copied ∧ s₂.total_missing = s₁.total_missing ∧
      s₂.total_errors = s₁.total_errors :=
  claim3_second_run_idempotent demo_env "/in" demo_fs none rfl rfl (by decide)
    (fun _ _ => rfl)

/-- Witness for C4: the stale output directory in the demo tree is not a
candidate. -/
theorem claim4_output_dirs_never_candidates_witness :
    "old_final_results" ∉ candidate_subdirs demo_fs ∧
    "old_final_results" ∉ (candidate_subdirs demo_fs).insertionSort strle :=
  claim4_output_dirs_never_candidates demo_fs "old_final_results" (by decide)

/-- The demo tree with its entries enumerated in a different order. -/
def demo_fs_shuffled : FS :=
  ⟨[("run_1", true), ("notes.txt", false), ("old_final_results", true), ("run_2", true)],
    demo_fs.contents⟩

/-- Witness for C5: the processing sequence is sorted and is unchanged by the
shuffled enumeration. -/
theorem claim5_deterministic_order_witness :
    ((candidate_subdirs demo_fs).insertionSort strle).Sorted strle ∧
    List.Perm ((candidate_subdirs demo_fs).insertionSort strle)
      (candidate_subdirs demo_fs) ∧
    (candidate_subdirs demo_fs).insertionSort strle =
      (candidate_subdirs demo_fs_shuffled).insertionSort strle :=
  claim5_deterministic_order demo_fs demo_fs_shuffled (by decide)

/-- An environment whose input path does not exist. -/
def missing_env : Env := ⟨false, true, fun _ => "y", fun _ _ => none⟩

/-- Witness for C6: a nonexistent input path exits with code 1 and an
untouched filesystem. -/
theorem claim6_invalid_input_path_witness :
    ∃ pre, process_ensembles missing_env "/no/such/dir" demo_fs none =
      .exited 1 demo_fs [pre ++ "/no/such/dir"] :=
  claim6_invalid_input_path missing_env "/no/such/dir" demo_fs none (Or.inl rfl)

/-- A tree where candidate "a" already has its output directory holding one
stale file, while the source holds one required file. -/
def existing_fs : FS :=
  ⟨[("a", true), ("a_final_results", true)],
    fun d f =>
      if d = "a" ∧ f = "topology.pdb" then some "fresh"
      else if d = "a_final_results" ∧ f = "extra.txt" then some "old"
      else none⟩

/-- An environment that declines every overwrite prompt, with whitespace and
case noise around the answer. -/
def decline_env : Env := ⟨true, true, fun _ => "  N ", fun _ _ => none⟩

/-- The loop state just before processing candidate "a". -/
def existing_state : RunState := ⟨existing_fs, ⟨0, 0, 0, 0, 0, 0⟩, []⟩

/-- Witness for C7: declining the overwrite prompt skips the candidate and
touches nothing. -/
theorem claim7_decline_skips_candidate_witness :
    (process_candidate decline_env default_required 1 existing_state "a").summary.skipped =
      existing_state.summary.skipped + 1 ∧
    (process_candidate decline_env default_required 1 existing_state "a").summary.processed =
      existing_state.summary.processed + 1 ∧
    (process_candidate decline_env default_required 1 existing_state "a").summary.created =
      existing_state.summary.created ∧
    (process_candidate decline_env default_required 1 existing_state "a").fs =
      existing_state.fs :=
  claim7_decline_skips_candidate decline_env default_required 1 existing_state "a"
    (by decide) (by decide)

/-- Witness for C9: confirming the overwrite reuses the directory, leaves the
stale extra file alone and replaces the present required file. -/
theorem claim9_overwrite_in_place_witness :
    (process_candidate demo_env default_required 1 existing_state "a").fs.entries =
      existing_state.fs.entries ∧
    (process_candidate demo_env default_required 1 existing_state "a").summary.created =
      existing_state.summary.created ∧
    (process_candidate demo_env default_required 1 existing_state "a").summary.processed =
      existing_state.summary.processed + 1 ∧
    (process_candidate demo_env default_required 1 existing_state "a").fs.contents
      ("a" ++ output_suffix) "extra.txt" =
      existing_state.fs.contents ("a" ++ output_suffix) "extra.txt" ∧
    (process_candidate demo_env default_required 1 existing_state "a").fs.contents
      ("a" ++ output_suffix) "topology.pdb" = some "fresh" :=
  claim9_overwrite_in_place demo_env default_required 1 existing_state "a"
    "extra.txt" "topology.pdb" "fresh" (by decide) (by decide) (by decide) (by decide)
    (by decide) (by decide)

/-- A copy-failure oracle that fails on exactly one file. -/
def fail_oracle : String → String → Option String :=
  fun d f => if d = "a" ∧ f = "samples.xtc" then some "Permission denied" else none

/-- A source directory holding two of the three required files. -/
def fail_fs : FS :=
  ⟨[("a", true), ("a_final_results", true)],
    fun d f => if d = "a" ∧ (f = "samples.xtc" ∨ f = "topology.pdb")
      then some "x" else none⟩

/-- Witness for C8: the failed copy is recorded with its message and the other
files are still processed. -/
theorem claim8_copy_failure_nonfatal_witness :
    ("samples.xtc" ++ ": " ++ "Permission denied") ∈
      (copy_ensemble_files fail_oracle "a" "a_final_results" fail_fs
        default_required).2.1.errors ∧
    (copy_ensemble_files fail_oracle "a" "a_final_results" fail_fs
      default_required).2.1.copied.length +
    (copy_ensemble_files fail_oracle "a" "a_final_results" fail_fs
      default_required).2.1.missing.length +
    (copy_ensemble_files fail_oracle "a" "a_final_results" fail_fs
      default_required).2.1.errors.length = default_required.length :=
  claim8_copy_failure_nonfatal fail_oracle "a" "a_final_results" fail_fs default_required
    "samples.xtc" "Permission denied" (by decide) (by decide) (by decide) (by decide)

end ExtractResults
